import Mathlib

/-!
Shallow embedding of gemtext2md (src/main.rs), a Gemtext-to-Markdown
converter structured as a classify/group/render pipeline.  The Rust
program's channel-connected threads are embedded as pure functions on
lists; a thread panic (out-of-bounds slice in make_heading, or the
intentional panic on a malformed line in blocks_of_lines) is modelled
by returning none.  Rust strings are handled through their character
lists, mirroring the source, which pattern-matches on
s.chars().collect::<Vec<char>>().
-/

/- Data model: HeadingLevel, Malformed, Heading, Link, Line, Block
   mirror the enums/structs of main.rs lines 26-61. -/

inductive HeadingLevel
  | H1
  | H2
  | H3
deriving DecidableEq

inductive Malformed
  | MLink
  | MHeading
deriving DecidableEq

structure Heading where
  level : HeadingLevel
  text : String
deriving DecidableEq

structure Link where
  url : String
  tag : Option String
deriving DecidableEq

inductive Line
  | PreformattedL (lines : List String)
  | ParaL (text : String)
  | LinkL (link : Link)
  | HeadingL (h : Heading)
  | BlankL
  | MalformedL (m : Malformed)
deriving DecidableEq

inductive Block
  | PreformattedB (lines : List String)
  | ParaB (text : String)
  | LinksB (links : List Link)
  | HeadingB (h : Heading)
deriving DecidableEq

open HeadingLevel Malformed Line Block

/-- Embeds fn trim (main.rs line 170): str::trim, i.e. the line with
leading and trailing whitespace removed, at the character level. -/
def trimChars (cs : List Char) : List Char :=
  ((cs.dropWhile Char.isWhitespace).reverse.dropWhile Char.isWhitespace).reverse

/-- String-level wrapper for trim, as used on Rust String values. -/
def trim (s : String) : String :=
  ⟨trimChars s.data⟩

/-- Embeds fn heading_chars (main.rs lines 132-142). -/
def heading_chars : HeadingLevel → String
  | H1 => "#"
  | H2 => "##"
  | H3 => "###"

/-- Splitting helper: the first occurrence of sep splits the list into
the part before and the part after; none if sep does not occur.  This
is the single step of Rust's str::splitn. -/
def splitFirst (sep : Char) : List Char → Option (List Char × List Char)
  | [] => none
  | c :: rest =>
    if c = sep then some ([], rest)
    else
      match splitFirst sep rest with
      | none => none
      | some (a, b) => some (c :: a, b)

/-- Embeds str::splitn(n, " ") with a single-character separator: at
most n fields, the last field keeps the unsplit remainder. -/
def splitn (sep : Char) : Nat → List Char → List (List Char)
  | 0, _ => []
  | 1, cs => [cs]
  | n + 2, cs =>
    match splitFirst sep cs with
    | none => [cs]
    | some (a, b) => a :: splitn sep (n + 1) b

/-- Embeds fn link_of_line (main.rs lines 155-167): splitn(3, " ") on
the whole line, then a match on the parts. -/
def link_of_line (cs : List Char) : Line :=
  match splitn ' ' 3 cs with
  | [['=', '>'], []] => MalformedL MLink
  | [['=', '>'], url] => LinkL ⟨⟨url⟩, none⟩
  | [['=', '>'], url, tag] => LinkL ⟨⟨url⟩, some ⟨tag⟩⟩
  | _ => MalformedL MLink

/-- Embeds fn make_heading (main.rs lines 172-176).  The Rust code
slices &trimmed[offset..], which panics when offset exceeds the length
of the trimmed string; the panic is modelled as none.  At every call
site the first offset characters of the line are ASCII ('#' and ' '),
so byte offsets and character offsets coincide. -/
def make_heading (cs : List Char) (level : HeadingLevel) (offset : Nat) : Option Line :=
  let trimmed := trimChars cs
  if offset ≤ trimmed.length then
    some (HeadingL ⟨level, ⟨trimmed.drop offset⟩⟩)
  else
    none

/-- Embeds impl From<String> for Line (main.rs lines 63-96), the
lexical classifier.  The Rust code is a first-match pattern match on
the character vector of the raw line; each condition below is the
direct translation of the corresponding arm, in the same order:
['=','>'] ; ['=','>',' ',..] ; ['=','>',..] ; ['#','#','#'] ;
['#','#','#',' '] ; ['#','#','#',' ',..] ; ['#','#','#',..] ;
['#','#',_] ; ['#','#'] ; ['#','#',' ',..] ; ['#','#',..] ;
['#',' '] ; ['#'] ; ['#',' ',..] ; ['#',..] ; [] ; catch-all. -/
def line_of_chars (cs : List Char) : Option Line :=
  if cs = ['=', '>'] then some (MalformedL MLink)
  else if cs.take 3 = ['=', '>', ' '] then some (link_of_line cs)
  else if cs.take 2 = ['=', '>'] then some (MalformedL MLink)
  else if cs = ['#', '#', '#'] then some (MalformedL MHeading)
  else if cs = ['#', '#', '#', ' '] then some (MalformedL MHeading)
  else if cs.take 4 = ['#', '#', '#', ' '] then make_heading cs H3 4
  else if cs.take 3 = ['#', '#', '#'] then make_heading cs H3 3
  else if cs.take 2 = ['#', '#'] ∧ cs.length = 3 then some (MalformedL MHeading)
  else if cs = ['#', '#'] then some (MalformedL MHeading)
  else if cs.take 3 = ['#', '#', ' '] then make_heading cs H2 3
  else if cs.take 2 = ['#', '#'] then some (MalformedL MHeading)
  else if cs = ['#', ' '] then some (MalformedL MHeading)
  else if cs = ['#'] then some (MalformedL MHeading)
  else if cs.take 2 = ['#', ' '] then make_heading cs H1 2
  else if cs.take 1 = ['#'] then some (MalformedL MHeading)
  else if cs = [] then some BlankL
  else some (ParaL ⟨trimChars cs⟩)

/-- line_of_string s corresponds to Line::from(s); none models a panic
inside make_heading. -/
def line_of_string (s : String) : Option Line :=
  line_of_chars s.data

/-- Embeds impl fmt::Display for Link (main.rs lines 105-115). -/
def display_link (l : Link) : String :=
  let caption := match l.tag with
    | some c => c
    | none => l.url
  "* [" ++ caption ++ "](" ++ l.url ++ ")\n"

/-- Embeds impl fmt::Display for Heading (main.rs lines 99-103). -/
def display_heading (h : Heading) : String :=
  heading_chars h.level ++ " " ++ h.text

/-- Embeds fn string_of_links (main.rs lines 144-153). -/
def string_of_links (ll : List Link) : String :=
  if ll.isEmpty then ("")
  else String.join (ll.map display_link) ++ "\n"

/-- Embeds impl fmt::Display for Block (main.rs lines 117-130). -/
def display_block : Block → String
  | ParaB p => p ++ "\n\n"
  | PreformattedB prpr => "```\n" ++ "\n".intercalate prpr ++ "\n```\n\n"
  | LinksB ll => string_of_links ll
  | HeadingB h => display_heading h ++ "\n\n"

/-- Embeds fn consume_blocks (main.rs lines 282-289): each block is
printed in order, so the whole output is the concatenation. -/
def render_blocks (bs : List Block) : String :=
  String.join (bs.map display_block)

/-- A line whose first three characters are the fence marker; embeds
the test i.get(..3) == Some of the marker in gather_preformatted. -/
def is_fence (s : String) : Bool :=
  decide (s.data.take 3 = "```".data)

/-- Embeds fn gather_preformatted (main.rs lines 192-203): fence lines
toggle the flag and are discarded; every other line is emitted tagged
with the current flag. -/
def gather_preformatted : Bool → List String → List (Bool × String)
  | _, [] => []
  | pref, l :: rest =>
    if is_fence l then gather_preformatted (!pref) rest
    else (pref, l) :: gather_preformatted pref rest

/-- Embeds fn decode_lines (main.rs lines 205-237): flagged lines are
buffered; on an unflagged line a non-empty buffer is emitted first as
PreformattedL, then the line is classified; a non-empty buffer at end
of input is emitted as a final PreformattedL.  none models a panic
during classification, which kills the thread before anything further
is emitted. -/
def decode_lines : List String → List (Bool × String) → Option (List Line)
  | acc, [] => some (if acc.isEmpty then [] else [PreformattedL acc])
  | acc, (true, l) :: rest => decode_lines (acc ++ [l]) rest
  | acc, (false, l) :: rest =>
    match line_of_chars l.data with
    | none => none
    | some cl =>
      if acc.isEmpty then (decode_lines [] rest).map (fun t => cl :: t)
      else (decode_lines [] rest).map (fun t => PreformattedL acc :: cl :: t)

/-- Embeds fn blocks_of_lines (main.rs lines 239-280): link lines are
accumulated; any other line flushes the accumulator as a LinksB before
its own block; a malformed line panics (none); a non-empty accumulator
at end of input is flushed as a final LinksB. -/
def blocks_of_lines : List Link → List Line → Option (List Block)
  | links, [] => some (if links.isEmpty then [] else [LinksB links])
  | links, BlankL :: rest =>
    (blocks_of_lines [] rest).map (fun t => LinksB links :: t)
  | links, ParaL p :: rest =>
    (blocks_of_lines [] rest).map (fun t => LinksB links :: ParaB p :: t)
  | links, HeadingL h :: rest =>
    (blocks_of_lines [] rest).map (fun t => LinksB links :: HeadingB h :: t)
  | links, PreformattedL p :: rest =>
    (blocks_of_lines [] rest).map (fun t => LinksB links :: PreformattedB p :: t)
  | links, LinkL link :: rest => blocks_of_lines (links ++ [link]) rest
  | _, MalformedL _ :: _ => none

/-- Embeds fn main (main.rs lines 291-305): the stages composed in
order; the rendered output is the concatenation of the blocks. -/
def pipeline (doc : List String) : Option String :=
  (decode_lines [] (gather_preformatted false doc)).bind
    (fun ls => (blocks_of_lines [] ls).map render_blocks)

/-- Modelled from the claim wording: the well-formed heading shape,
exactly N `#` characters (N in {1,2,3}), then exactly one space, then
at least one further character. -/
def heading_shape (cs : List Char) : Bool :=
  let n := (cs.takeWhile (fun c => c == '#')).length
  decide (1 ≤ n) && decide (n ≤ 3) &&
    (match cs.drop n with
     | ' ' :: rest => !rest.isEmpty
     | _ => false)

/-- Modelled from the amended C2 claim: the line's first three
characters are `#` and a fourth character exists that is not a space
(more than three leading `#`, or `###` glued directly to text) — the
shapes the classifier sends to make_heading with offset 3. -/
def three_hash_no_space (cs : List Char) : Bool :=
  decide (cs.take 3 = ['#', '#', '#']) && decide (4 ≤ cs.length) &&
    !decide (cs.take 4 = ['#', '#', '#', ' '])

/-- The fence flag held by gather_preformatted after consuming xs. -/
def fence_flag (b : Bool) (xs : List String) : Bool :=
  xs.foldl (fun fl l => if is_fence l then !fl else fl) b

/-- The lines emitted by decode_lines while consuming its input,
without the final end-of-input flush; see decode_lines_decomp. -/
def decode_emit : List String → List (Bool × String) → Option (List Line)
  | _, [] => some []
  | acc, (true, l) :: rest => decode_emit (acc ++ [l]) rest
  | acc, (false, l) :: rest =>
    match line_of_chars l.data with
    | none => none
    | some cl =>
      if acc.isEmpty then (decode_emit [] rest).map (fun t => cl :: t)
      else (decode_emit [] rest).map (fun t => Line.PreformattedL acc :: cl :: t)

/-- The preformatted buffer held by decode_lines after consuming its
input; see decode_lines_decomp. -/
def decode_state : List String → List (Bool × String) → List String
  | acc, [] => acc
  | acc, (true, l) :: rest => decode_state (acc ++ [l]) rest
  | _, (false, _) :: rest => decode_state [] rest

/- Claim-level inputs, defined once so theorems can refer to them. -/

def c1_doc : List String := ["# Title", "", "=> https://example.org Example", "plain text"]

def c1_expected : String := "# Title\n\n* [Example](https://example.org)\n\nplain text\n\n"

def c2w_input : String := "####"

def c2_input : String := "####"

def c2_hash : String := "#"

def c4_input : String := "#  "

def c5_input : String := " # x"

def c5_para_text : String := "# x"

def c5_heading_text : String := "x"

def empty_str : String := ""

def c3_input : String := "=>  foo"

def c3_tag : String := "foo"

def c9_input : String := "=> a b"

def c9_claim_url : String := "a b"

def c10_input : String := "=> a b "

def c10_claim_url : String := "a b"

def c6w_link : Link := ⟨"u", none⟩

def c8w_link1 : Link := ⟨"v", none⟩

def c8w_link2 : Link := ⟨"w", none⟩

def c7_doc : List String := ["```", "x", "```", "```", "y"]

def c7_x : String := "x"

def c7_y : String := "y"

def c7w_a : String := "a"

def c7w_b : String := "b"

def fence_str : String := "```"

/- Evaluation lemmas for line_of_chars, one per family of arms of the
source pattern match. -/

theorem los_other_head (w : Char) (cs : List Char) (h1 : w ≠ '=') (h2 : w ≠ '#') :
    line_of_chars (w :: cs) = some (ParaL ⟨trimChars (w :: cs)⟩) := by
  have e1 : ¬(w :: cs = ['=', '>']) := by
    intro h; injection h with ha _; exact h1 ha
  have e2 : ¬((w :: cs).take 3 = ['=', '>', ' ']) := by
    intro h
    have h' : w :: cs.take 2 = ['=', '>', ' '] := h
    injection h' with ha _; exact h1 ha
  have e3 : ¬((w :: cs).take 2 = ['=', '>']) := by
    intro h
    have h' : w :: cs.take 1 = ['=', '>'] := h
    injection h' with ha _; exact h1 ha
  have e4 : ¬(w :: cs = ['#', '#', '#']) := by
    intro h; injection h with ha _; exact h2 ha
  have e5 : ¬(w :: cs = ['#', '#', '#', ' ']) := by
    intro h; injection h with ha _; exact h2 ha
  have e6 : ¬((w :: cs).take 4 = ['#', '#', '#', ' ']) := by
    intro h
    have h' : w :: cs.take 3 = ['#', '#', '#', ' '] := h
    injection h' with ha _; exact h2 ha
  have e7 : ¬((w :: cs).take 3 = ['#', '#', '#']) := by
    intro h
    have h' : w :: cs.take 2 = ['#', '#', '#'] := h
    injection h' with ha _; exact h2 ha
  have e8 : ¬((w :: cs).take 2 = ['#', '#'] ∧ (w :: cs).length = 3) := by
    intro h
    have h' : w :: cs.take 1 = ['#', '#'] := h.1
    injection h' with ha _; exact h2 ha
  have e9 : ¬(w :: cs = ['#', '#']) := by
    intro h; injection h with ha _; exact h2 ha
  have e10 : ¬((w :: cs).take 3 = ['#', '#', ' ']) := by
    intro h
    have h' : w :: cs.take 2 = ['#', '#', ' '] := h
    injection h' with ha _; exact h2 ha
  have e11 : ¬((w :: cs).take 2 = ['#', '#']) := by
    intro h
    have h' : w :: cs.take 1 = ['#', '#'] := h
    injection h' with ha _; exact h2 ha
  have e12 : ¬(w :: cs = ['#', ' ']) := by
    intro h; injection h with ha _; exact h2 ha
  have e13 : ¬(w :: cs = ['#']) := by
    intro h; injection h with ha _; exact h2 ha
  have e14 : ¬((w :: cs).take 2 = ['#', ' ']) := by
    intro h
    have h' : w :: cs.take 1 = ['#', ' '] := h
    injection h' with ha _; exact h2 ha
  have e15 : ¬((w :: cs).take 1 = ['#']) := by
    intro h
    have h' : w :: cs.take 0 = ['#'] := h
    injection h' with ha _; exact h2 ha
  have e16 : ¬(w :: cs = ([] : List Char)) := by
    intro h; exact List.cons_ne_nil _ _ h
  simp only [line_of_chars, if_neg e1, if_neg e2, if_neg e3, if_neg e4, if_neg e5,
    if_neg e6, if_neg e7, if_neg e8, if_neg e9, if_neg e10, if_neg e11, if_neg e12,
    if_neg e13, if_neg e14, if_neg e15, if_neg e16]

theorem los_link_space (rest : List Char) :
    line_of_chars ('=' :: '>' :: ' ' :: rest) =
      some (link_of_line ('=' :: '>' :: ' ' :: rest)) := by
  have e1 : ¬('=' :: '>' :: ' ' :: rest = ['=', '>']) := by
    intro h
    injection h with _ h'
    injection h' with _ h''
    exact List.cons_ne_nil _ _ h''
  have e2 : ('=' :: '>' :: ' ' :: rest).take 3 = ['=', '>', ' '] := rfl
  simp only [line_of_chars, if_neg e1, if_pos e2]

theorem los_link_bad (c : Char) (cs : List Char) (h : c ≠ ' ') :
    line_of_chars ('=' :: '>' :: c :: cs) = some (MalformedL MLink) := by
  have e1 : ¬('=' :: '>' :: c :: cs = ['=', '>']) := by
    intro h'
    injection h' with _ h''
    injection h'' with _ h'''
    exact List.cons_ne_nil _ _ h'''
  have e2 : ¬(('=' :: '>' :: c :: cs).take 3 = ['=', '>', ' ']) := by
    intro h'
    have h'' : '=' :: '>' :: c :: cs.take 0 = ['=', '>', ' '] := h'
    injection h'' with _ h3
    injection h3 with _ h4
    injection h4 with h5 _
    exact h h5
  have e3 : ('=' :: '>' :: c :: cs).take 2 = ['=', '>'] := rfl
  simp only [line_of_chars, if_neg e1, if_neg e2, if_pos e3]

theorem los_h1_bad (c : Char) (cs : List Char) (h1 : c ≠ '#') (h2 : c ≠ ' ') :
    line_of_chars ('#' :: c :: cs) = some (MalformedL MHeading) := by
  have e1 : ¬('#' :: c :: cs = ['=', '>']) := by
    intro h; injection h with ha _; exact absurd ha (by decide)
  have e2 : ¬(('#' :: c :: cs).take 3 = ['=', '>', ' ']) := by
    intro h
    have h' : '#' :: c :: cs.take 1 = ['=', '>', ' '] := h
    injection h' with ha _; exact absurd ha (by decide)
  have e3 : ¬(('#' :: c :: cs).take 2 = ['=', '>']) := by
    intro h
    have h' : '#' :: c :: cs.take 0 = ['=', '>'] := h
    injection h' with ha _; exact absurd ha (by decide)
  have e4 : ¬('#' :: c :: cs = ['#', '#', '#']) := by
    intro h; injection h with _ h'; injection h' with hb _; exact h1 hb
  have e5 : ¬('#' :: c :: cs = ['#', '#', '#', ' ']) := by
    intro h; injection h with _ h'; injection h' with hb _; exact h1 hb
  have e6 : ¬(('#' :: c :: cs).take 4 = ['#', '#', '#', ' ']) := by
    intro h
    have h' : '#' :: c :: cs.take 2 = ['#', '#', '#', ' '] := h
    injection h' with _ h''; injection h'' with hb _; exact h1 hb
  have e7 : ¬(('#' :: c :: cs).take 3 = ['#', '#', '#']) := by
    intro h
    have h' : '#' :: c :: cs.take 1 = ['#', '#', '#'] := h
    injection h' with _ h''; injection h'' with hb _; exact h1 hb
  have e8 : ¬(('#' :: c :: cs).take 2 = ['#', '#'] ∧ ('#' :: c :: cs).length = 3) := by
    intro h
    have h' : '#' :: c :: cs.take 0 = ['#', '#'] := h.1
    injection h' with _ h''; injection h'' with hb _; exact h1 hb
  have e9 : ¬('#' :: c :: cs = ['#', '#']) := by
    intro h; injection h with _ h'; injection h' with hb _; exact h1 hb
  have e10 : ¬(('#' :: c :: cs).take 3 = ['#', '#', ' ']) := by
    intro h
    have h' : '#' :: c :: cs.take 1 = ['#', '#', ' '] := h
    injection h' with _ h''; injection h'' with hb _; exact h1 hb
  have e11 : ¬(('#' :: c :: cs).take 2 = ['#', '#']) := by
    intro h
    have h' : '#' :: c :: cs.take 0 = ['#', '#'] := h
    injection h' with _ h''; injection h'' with hb _; exact h1 hb
  have e12 : ¬('#' :: c :: cs = ['#', ' ']) := by
    intro h; injection h with _ h'; injection h' with hb _; exact h2 hb
  have e13 : ¬('#' :: c :: cs = ['#']) := by
    intro h; injection h with _ h'; exact List.cons_ne_nil _ _ h'
  have e14 : ¬(('#' :: c :: cs).take 2 = ['#', ' ']) := by
    intro h
    have h' : '#' :: c :: cs.take 0 = ['#', ' '] := h
    injection h' with _ h''; injection h'' with hb _; exact h2 hb
  have e15 : ('#' :: c :: cs).take 1 = ['#'] := rfl
  simp only [line_of_chars, if_neg e1, if_neg e2, if_neg e3, if_neg e4, if_neg e5,
    if_neg e6, if_neg e7, if_neg e8, if_neg e9, if_neg e10, if_neg e11, if_neg e12,
    if_neg e13, if_neg e14, if_pos e15]

theorem los_h2_bad (c : Char) (cs : List Char) (h1 : c ≠ '#') (h2 : c ≠ ' ') :
    line_of_chars ('#' :: '#' :: c :: cs) = some (MalformedL MHeading) := by
  have e1 : ¬('#' :: '#' :: c :: cs = ['=', '>']) := by
    intro h; injection h with ha _; exact absurd ha (by decide)
  have e2 : ¬(('#' :: '#' :: c :: cs).take 3 = ['=', '>', ' ']) := by
    intro h
    have h' : '#' :: '#' :: c :: cs.take 0 = ['=', '>', ' '] := h
    injection h' with ha _; exact absurd ha (by decide)
  have e3 : ¬(('#' :: '#' :: c :: cs).take 2 = ['=', '>']) := by
    intro h
    have h' : ('#' :: '#' :: ([] : List Char)) = ['=', '>'] := h
    injection h' with ha _; exact absurd ha (by decide)
  have e4 : ¬('#' :: '#' :: c :: cs = ['#', '#', '#']) := by
    intro h
    injection h with _ h'; injection h' with _ h''; injection h'' with hc _
    exact h1 hc
  have e5 : ¬('#' :: '#' :: c :: cs = ['#', '#', '#', ' ']) := by
    intro h
    injection h with _ h'; injection h' with _ h''; injection h'' with hc _
    exact h1 hc
  have e6 : ¬(('#' :: '#' :: c :: cs).take 4 = ['#', '#', '#', ' ']) := by
    intro h
    have h' : '#' :: '#' :: c :: cs.take 1 = ['#', '#', '#', ' '] := h
    injection h' with _ h2'; injection h2' with _ h3; injection h3 with hc _
    exact h1 hc
  have e7 : ¬(('#' :: '#' :: c :: cs).take 3 = ['#', '#', '#']) := by
    intro h
    have h' : '#' :: '#' :: c :: cs.take 0 = ['#', '#', '#'] := h
    injection h' with _ h2'; injection h2' with _ h3; injection h3 with hc _
    exact h1 hc
  by_cases hlen : ('#' :: '#' :: c :: cs).length = 3
  · have e8 : ('#' :: '#' :: c :: cs).take 2 = ['#', '#'] ∧
        ('#' :: '#' :: c :: cs).length = 3 := ⟨rfl, hlen⟩
    simp only [line_of_chars, if_neg e1, if_neg e2, if_neg e3, if_neg e4, if_neg e5,
      if_neg e6, if_neg e7, if_pos e8]
  · have e8 : ¬(('#' :: '#' :: c :: cs).take 2 = ['#', '#'] ∧
        ('#' :: '#' :: c :: cs).length = 3) := fun h => hlen h.2
    have e9 : ¬('#' :: '#' :: c :: cs = ['#', '#']) := by
      intro h
      injection h with _ h'; injection h' with _ h''
      exact List.cons_ne_nil _ _ h''
    have e10 : ¬(('#' :: '#' :: c :: cs).take 3 = ['#', '#', ' ']) := by
      intro h
      have h' : '#' :: '#' :: c :: cs.take 0 = ['#', '#', ' '] := h
      injection h' with _ h2'; injection h2' with _ h3; injection h3 with hc _
      exact h2 hc
    have e11 : ('#' :: '#' :: c :: cs).take 2 = ['#', '#'] := rfl
    simp only [line_of_chars, if_neg e1, if_neg e2, if_neg e3, if_neg e4, if_neg e5,
      if_neg e6, if_neg e7, if_neg e8, if_neg e9, if_neg e10, if_pos e11]

theorem los_h3_nospace (c : Char) (cs : List Char) (h1 : c ≠ ' ') :
    line_of_chars ('#' :: '#' :: '#' :: c :: cs) =
      make_heading ('#' :: '#' :: '#' :: c :: cs) H3 3 := by
  have e1 : ¬('#' :: '#' :: '#' :: c :: cs = ['=', '>']) := by
    intro h; injection h with ha _; exact absurd ha (by decide)
  have e2 : ¬(('#' :: '#' :: '#' :: c :: cs).take 3 = ['=', '>', ' ']) := by
    intro h
    have h' : ('#' :: '#' :: '#' :: ([] : List Char)) = ['=', '>', ' '] := h
    injection h' with ha _; exact absurd ha (by decide)
  have e3 : ¬(('#' :: '#' :: '#' :: c :: cs).take 2 = ['=', '>']) := by
    intro h
    have h' : ('#' :: '#' :: ([] : List Char)) = ['=', '>'] := h
    injection h' with ha _; exact absurd ha (by decide)
  have e4 : ¬('#' :: '#' :: '#' :: c :: cs = ['#', '#', '#']) := by
    intro h
    injection h with _ h'; injection h' with _ h''; injection h'' with _ h3
    exact List.cons_ne_nil _ _ h3
  have e5 : ¬('#' :: '#' :: '#' :: c :: cs = ['#', '#', '#', ' ']) := by
    intro h
    injection h with _ h'; injection h' with _ h''; injection h'' with _ h3
    injection h3 with hc _
    exact h1 hc
  have e6 : ¬(('#' :: '#' :: '#' :: c :: cs).take 4 = ['#', '#', '#', ' ']) := by
    intro h
    have h' : '#' :: '#' :: '#' :: c :: cs.take 0 = ['#', '#', '#', ' '] := h
    injection h' with _ h2'; injection h2' with _ h3; injection h3 with _ h4
    injection h4 with hc _
    exact h1 hc
  have e7 : ('#' :: '#' :: '#' :: c :: cs).take 3 = ['#', '#', '#'] := rfl
  simp only [line_of_chars, if_neg e1, if_neg e2, if_neg e3, if_neg e4, if_neg e5,
    if_neg e6, if_pos e7]

theorem heading_shape_h1 (cs : List Char) :
    heading_shape ('#' :: ' ' :: cs) = !cs.isEmpty := rfl

theorem heading_shape_h2 (cs : List Char) :
    heading_shape ('#' :: '#' :: ' ' :: cs) = !cs.isEmpty := rfl

theorem heading_shape_h3 (cs : List Char) :
    heading_shape ('#' :: '#' :: '#' :: ' ' :: cs) = !cs.isEmpty := rfl

theorem splitFirst_of_not_mem (cs : List Char) (h : ' ' ∉ cs) :
    splitFirst ' ' cs = none := by
  induction cs with
  | nil => rfl
  | cons c t ih =>
    have hc : ¬(c = ' ') := fun hc => h (hc ▸ List.mem_cons_self _ _)
    have ht : ' ' ∉ t := fun hm => h (List.mem_cons_of_mem _ hm)
    simp only [splitFirst, if_neg hc, ih ht]

theorem splitFirst_append (pre post : List Char) (h : ' ' ∉ pre) :
    splitFirst ' ' (pre ++ ' ' :: post) = some (pre, post) := by
  induction pre with
  | nil => rfl
  | cons c t ih =>
    have hc : ¬(c = ' ') := fun hc => h (hc ▸ List.mem_cons_self _ _)
    have ht : ' ' ∉ t := fun hm => h (List.mem_cons_of_mem _ hm)
    have e : splitFirst ' ' ((c :: t) ++ ' ' :: post) =
        if c = ' ' then some ([], t ++ ' ' :: post)
        else
          match splitFirst ' ' (t ++ ' ' :: post) with
          | none => none
          | some (a, b) => some (c :: a, b) := rfl
    rw [e, if_neg hc, ih ht]

theorem splitn3_marker (rest : List Char) :
    splitn ' ' 3 ('=' :: '>' :: ' ' :: rest) = ['=', '>'] :: splitn ' ' 2 rest := rfl

theorem splitn2_no_space (cs : List Char) (h : ' ' ∉ cs) :
    splitn ' ' 2 cs = [cs] := by
  have e : splitn ' ' 2 cs =
      match splitFirst ' ' cs with
      | none => [cs]
      | some (a, b) => a :: splitn ' ' 1 b := rfl
  rw [e, splitFirst_of_not_mem cs h]

theorem splitn2_space (pre post : List Char) (h : ' ' ∉ pre) :
    splitn ' ' 2 (pre ++ ' ' :: post) = [pre, post] := by
  have e : splitn ' ' 2 (pre ++ ' ' :: post) =
      match splitFirst ' ' (pre ++ ' ' :: post) with
      | none => [pre ++ ' ' :: post]
      | some (a, b) => a :: splitn ' ' 1 b := rfl
  rw [e, splitFirst_append pre post h]
  rfl

theorem link_of_line_url (url : List Char) (h1 : url ≠ []) (h2 : ' ' ∉ url) :
    link_of_line ('=' :: '>' :: ' ' :: url) = LinkL ⟨⟨url⟩, none⟩ := by
  obtain ⟨c, t, rfl⟩ : ∃ c t, url = c :: t := by
    cases url with
    | nil => exact absurd rfl h1
    | cons c t => exact ⟨c, t, rfl⟩
  have e : splitn ' ' 3 ('=' :: '>' :: ' ' :: (c :: t)) = [['=', '>'], c :: t] := by
    rw [splitn3_marker, splitn2_no_space _ h2]
  simp only [link_of_line, e]

theorem link_of_line_url_tag (url tag : List Char) (h2 : ' ' ∉ url) :
    link_of_line ('=' :: '>' :: ' ' :: (url ++ ' ' :: tag)) =
      LinkL ⟨⟨url⟩, some ⟨tag⟩⟩ := by
  have e : splitn ' ' 3 ('=' :: '>' :: ' ' :: (url ++ ' ' :: tag)) =
      [['=', '>'], url, tag] := by
    rw [splitn3_marker, splitn2_space _ _ h2]
  simp only [link_of_line, e]

/-- Claim C1: the input lines of c1_doc render, end to end through the
pipeline, to exactly the string c1_expected. -/
theorem c1_end_to_end : pipeline c1_doc = some c1_expected := by decide

theorem rtrim_cons (x : Char) (l : List Char) (hx : x.isWhitespace = false) :
    ((x :: l).reverse.dropWhile Char.isWhitespace).reverse =
      x :: (l.reverse.dropWhile Char.isWhitespace).reverse := by
  rw [List.reverse_cons, List.dropWhile_append]
  by_cases h : (l.reverse.dropWhile Char.isWhitespace).isEmpty
  · rw [if_pos h]
    have h2 : l.reverse.dropWhile Char.isWhitespace = [] := by
      cases hq : l.reverse.dropWhile Char.isWhitespace with
      | nil => rfl
      | cons y ys => rw [hq] at h; simp at h
    rw [h2, List.dropWhile_cons_of_neg (by simp [hx])]
    rfl
  · rw [if_neg h, List.reverse_append]
    simp

theorem trimChars_three_hash (cs : List Char) :
    ∃ t, trimChars ('#' :: '#' :: '#' :: cs) = '#' :: '#' :: '#' :: t := by
  have hdrop : ('#' :: '#' :: '#' :: cs).dropWhile Char.isWhitespace =
      '#' :: '#' :: '#' :: cs := rfl
  show ∃ t, ((('#' :: '#' :: '#' :: cs).dropWhile Char.isWhitespace).reverse.dropWhile
      Char.isWhitespace).reverse = '#' :: '#' :: '#' :: t
  rw [hdrop, rtrim_cons _ _ (by decide), rtrim_cons _ _ (by decide),
    rtrim_cons _ _ (by decide)]
  exact ⟨(cs.reverse.dropWhile Char.isWhitespace).reverse, rfl⟩

theorem make_heading_three_hash (cs : List Char) :
    make_heading ('#' :: '#' :: '#' :: cs) H3 3 =
      some (HeadingL ⟨H3, ⟨(trimChars ('#' :: '#' :: '#' :: cs)).drop 3⟩⟩) := by
  obtain ⟨t, ht⟩ := trimChars_three_hash cs
  have hlen : 3 ≤ (trimChars ('#' :: '#' :: '#' :: cs)).length := by
    rw [ht]
    show 3 ≤ t.length + 1 + 1 + 1
    omega
  simp [make_heading, hlen]

/-- Counterexample to C2: the line of four `#` characters satisfies the
claim's hypotheses (it begins with `#`, has more than three leading `#`
and is not of the well-formed heading shape), yet the program
classifies it as a level-3 Heading with text `#`, not as Malformed:
the source arm for three `#` followed by a non-space calls
make_heading with offset 3. -/
theorem c2_counterexample :
    line_of_string c2_input = some (HeadingL ⟨H3, c2_hash⟩) ∧
    line_of_string c2_input ≠ some (MalformedL MHeading) ∧
    c2_input.data.head? = some '#' ∧
    heading_shape c2_input.data = false := by decide

/-- Claim C2 amended: every non-preformatted line beginning with `#`
that does not have the well-formed heading shape (exactly N `#` with N
in {1,2,3}, one space, at least one further character) classifies to
Malformed MHeading, EXCEPT lines whose first three characters are `#`
with a fourth character that is not a space (more than three leading
`#`, or `###` glued directly to text): those classify as a level-3
Heading whose text is the trimmed line with its first three characters
stripped. -/
theorem c2_heading_malformed_amended (s : String)
    (hhead : s.data.head? = some '#')
    (hshape : heading_shape s.data = false) :
    (three_hash_no_space s.data = false →
      line_of_string s = some (MalformedL MHeading)) ∧
    (three_hash_no_space s.data = true →
      line_of_string s = some (HeadingL ⟨H3, ⟨(trimChars s.data).drop 3⟩⟩)) := by
  obtain ⟨cs⟩ := s
  constructor
  · intro hth
    show line_of_chars cs = some (MalformedL MHeading)
    cases cs with
    | nil => simp at hhead
    | cons a t =>
      have ha : a = '#' := by simpa using hhead
      subst ha
      cases t with
      | nil => decide
      | cons b t2 =>
        by_cases hb1 : b = '#'
        · subst hb1
          cases t2 with
          | nil => decide
          | cons c t3 =>
            by_cases hc1 : c = '#'
            · subst hc1
              cases t3 with
              | nil => decide
              | cons e t4 =>
                by_cases he : e = ' '
                · subst he
                  cases t4 with
                  | nil => decide
                  | cons f t5 =>
                    rw [heading_shape_h3] at hshape
                    simp at hshape
                · exfalso
                  have d1 : decide (('#' :: '#' :: '#' :: e :: t4).take 3 =
                      ['#', '#', '#']) = true := rfl
                  have e2 : 4 ≤ ('#' :: '#' :: '#' :: e :: t4).length := by
                    show 4 ≤ t4.length + 1 + 1 + 1 + 1
                    omega
                  have e3 : ¬(('#' :: '#' :: '#' :: e :: t4).take 4 =
                      ['#', '#', '#', ' ']) := by
                    intro hq
                    have hq' : '#' :: '#' :: '#' :: e :: t4.take 0 =
                        ['#', '#', '#', ' '] := hq
                    injection hq' with _ hqa
                    injection hqa with _ hqb
                    injection hqb with _ hqc
                    injection hqc with hqd _
                    exact he hqd
                  simp [three_hash_no_space, d1, decide_eq_true e2,
                    decide_eq_false e3] at hth
                  exact he hth
            · by_cases hc2 : c = ' '
              · subst hc2
                cases t3 with
                | nil => decide
                | cons f t5 =>
                  rw [heading_shape_h2] at hshape
                  simp at hshape
              · exact los_h2_bad c t3 hc1 hc2
        · by_cases hb2 : b = ' '
          · subst hb2
            cases t2 with
            | nil => decide
            | cons f t5 =>
              rw [heading_shape_h1] at hshape
              simp at hshape
          · exact los_h1_bad b t2 hb1 hb2
  · intro hth
    have hth' : cs.take 3 = ['#', '#', '#'] ∧ 4 ≤ cs.length ∧
        ¬(cs.take 4 = ['#', '#', '#', ' ']) := by
      simpa [three_hash_no_space, and_assoc] using hth
    obtain ⟨h1, h2, h3⟩ := hth'
    rcases cs with _ | ⟨a, _ | ⟨b, _ | ⟨c, _ | ⟨d, r⟩⟩⟩⟩
    · simp at h2
    · simp at h2
    · simp at h2
    · simp at h2
    · have ha : a :: b :: c :: List.take 0 (d :: r) = ['#', '#', '#'] := h1
      injection ha with ha1 haa
      injection haa with hb1 hbb
      injection hbb with hc1 _
      subst ha1
      subst hb1
      subst hc1
      have hd : d ≠ ' ' := by
        intro hde
        apply h3
        rw [hde]
        rfl
      show line_of_chars ('#' :: '#' :: '#' :: d :: r) = _
      rw [los_h3_nospace d r hd, make_heading_three_hash (d :: r)]

/-- Witness for the amended C2: the line of four `#` characters takes
the heading branch of the amended statement. -/
theorem c2_heading_malformed_amended_witness :
    line_of_string c2w_input =
      some (HeadingL ⟨H3, ⟨(trimChars c2w_input.data).drop 3⟩⟩) :=
  (c2_heading_malformed_amended c2w_input (by decide) (by decide)).2 (by decide)

/-- Claim C4: classification is NOT total.  On the line of one `#`
followed by two spaces, make_heading trims the line to a single `#`
and then slices it at offset 2, which is out of bounds: the Rust
program panics (modelled as none).  The line does begin with `#`, and
has neither the well-formed heading shape nor any classification. -/
theorem c4_classifier_panics :
    line_of_string c4_input = none ∧ c4_input.data.head? = some '#' := by decide

/-- Counterexample to C5: the line of c5_input (a space, `#`, a space,
`x`) classifies as a Paragraph of the trimmed text, not as the level-1
Heading the claim predicts. -/
theorem c5_counterexample :
    line_of_string c5_input = some (ParaL c5_para_text) ∧
    line_of_string c5_input ≠ some (HeadingL ⟨H1, c5_heading_text⟩) := by decide

/-- Claim C5 amended: a line of leading whitespace followed by a
well-formed heading shape classifies as a Paragraph of the trimmed
line, NOT as a heading: the classifier pattern-matches the raw
untrimmed character list, so leading whitespace defeats heading
recognition; trim is applied only inside make_heading, after the raw
match. -/
theorem c5_leading_whitespace_amended (w : Char) (cs : List Char)
    (hw : w.isWhitespace = true)
    (hshape : heading_shape ((w :: cs).dropWhile Char.isWhitespace) = true) :
    line_of_string ⟨w :: cs⟩ = some (ParaL (trim ⟨w :: cs⟩)) := by
  have h1 : w ≠ '=' := by intro h; subst h; exact absurd hw (by decide)
  have h2 : w ≠ '#' := by intro h; subst h; exact absurd hw (by decide)
  exact los_other_head w cs h1 h2

/-- Witness for the amended C5 at a concrete line. -/
theorem c5_leading_whitespace_amended_witness :
    line_of_string ⟨[' ', '#', ' ', 'x']⟩ =
      some (ParaL (trim ⟨[' ', '#', ' ', 'x']⟩)) :=
  c5_leading_whitespace_amended ' ' ['#', ' ', 'x'] (by decide) (by decide)

theorem str_append_length (a b : String) : (a ++ b).length = a.length + b.length := by
  show (a.data ++ b.data).length = a.data.length + b.data.length
  exact List.length_append _ _

theorem str_mk_length (l : List Char) : (⟨l⟩ : String).length = l.length := rfl

theorem str_data_append (a b : String) : (a ++ b).data = a.data ++ b.data := rfl

theorem str_mk_data (l : List Char) : (⟨l⟩ : String).data = l := rfl

/-- Counterexample to C3: the line of c3_input (marker, two spaces,
`foo`) classifies to a Link with an EMPTY url and caption `foo`, not
to Malformed MLink as the claim requires; so the url field of a
produced Link can be empty. -/
theorem c3_counterexample :
    line_of_string c3_input = some (LinkL ⟨"", some c3_tag⟩) ∧
    line_of_string c3_input ≠ some (MalformedL MLink) := by decide

/-- Claim C3 amended: a line `=>`+space+url with a non-empty spaceless
url is a Link with absent caption; a line `=>`+space+space+rest is a
Link with EMPTY url and caption rest; `=>` followed by a non-space is
Malformed; `=>` alone and `=>`+space alone are Malformed.  The url of
a produced Link is empty exactly when the character after the first
space is itself a space (or the line is marker+space+space alone). -/
theorem c3_link_classification_amended (url cs2 : List Char) (c : Char) :
    (url ≠ [] → ' ' ∉ url →
      line_of_string ⟨'=' :: '>' :: ' ' :: url⟩ = some (LinkL ⟨⟨url⟩, none⟩)) ∧
    (line_of_string ⟨'=' :: '>' :: ' ' :: ' ' :: cs2⟩ =
      some (LinkL ⟨⟨[]⟩, some ⟨cs2⟩⟩)) ∧
    (c ≠ ' ' → line_of_string ⟨'=' :: '>' :: c :: cs2⟩ = some (MalformedL MLink)) ∧
    line_of_string ⟨['=', '>']⟩ = some (MalformedL MLink) ∧
    line_of_string ⟨['=', '>', ' ']⟩ = some (MalformedL MLink) := by
  refine ⟨?_, ?_, ?_, by decide, by decide⟩
  · intro h1 h2
    show line_of_chars ('=' :: '>' :: ' ' :: url) = _
    rw [los_link_space, link_of_line_url url h1 h2]
  · show line_of_chars ('=' :: '>' :: ' ' :: ' ' :: cs2) = _
    have e : ('=' :: '>' :: ' ' :: ' ' :: cs2) =
        ('=' :: '>' :: ' ' :: (([] : List Char) ++ ' ' :: cs2)) := rfl
    rw [e, los_link_space, link_of_line_url_tag [] cs2 (by simp)]
  · intro hc
    exact los_link_bad c cs2 hc

/-- Witness for the amended C3 at the line marker+space+foo. -/
theorem c3_link_classification_amended_witness :
    line_of_string ⟨['=', '>', ' ', 'f', 'o', 'o']⟩ =
      some (LinkL ⟨⟨['f', 'o', 'o']⟩, none⟩) :=
  (c3_link_classification_amended ['f', 'o', 'o'] [] 'x').1 (by decide) (by decide)

/-- Counterexample to C9: with URL the non-empty, newline-free string
`a b`, the line marker+space+URL does not classify to Link(URL,
absent): splitn splits at the first space inside the URL, yielding
Link("a", Some "b"). -/
theorem c9_counterexample :
    line_of_string c9_input = some (LinkL ⟨⟨['a']⟩, some ⟨['b']⟩⟩) ∧
    line_of_string c9_input ≠ some (LinkL ⟨c9_claim_url, none⟩) ∧
    c9_claim_url ≠ "" ∧
    '\n' ∉ c9_claim_url.data := by decide

/-- Claim C9 amended: for a non-empty URL containing no space and a
non-empty newline-free CAPTION (which may contain spaces), `=> URL`
classifies to Link(URL, absent) and that link renders as
`* [URL](URL)\n`, while `=> URL CAPTION` classifies to
Link(URL, CAPTION) and renders as `* [CAPTION](URL)\n`. -/
theorem c9_link_render_amended (url cap : List Char)
    (h1 : url ≠ []) (h2 : ' ' ∉ url) (h3 : cap ≠ []) (h4 : '\n' ∉ cap) :
    (line_of_string ⟨'=' :: '>' :: ' ' :: url⟩ = some (LinkL ⟨⟨url⟩, none⟩)) ∧
    (display_link ⟨⟨url⟩, none⟩ = "* [" ++ ⟨url⟩ ++ "](" ++ ⟨url⟩ ++ ")\n") ∧
    (line_of_string ⟨'=' :: '>' :: ' ' :: (url ++ ' ' :: cap)⟩ =
      some (LinkL ⟨⟨url⟩, some ⟨cap⟩⟩)) ∧
    (display_link ⟨⟨url⟩, some ⟨cap⟩⟩ = "* [" ++ ⟨cap⟩ ++ "](" ++ ⟨url⟩ ++ ")\n") := by
  refine ⟨?_, rfl, ?_, rfl⟩
  · show line_of_chars ('=' :: '>' :: ' ' :: url) = _
    rw [los_link_space, link_of_line_url url h1 h2]
  · show line_of_chars ('=' :: '>' :: ' ' :: (url ++ ' ' :: cap)) = _
    rw [los_link_space, link_of_line_url_tag url cap h2]

/-- Witness for the amended C9: url `u`, caption `c d` (with a space). -/
theorem c9_link_render_amended_witness :
    line_of_string ⟨['=', '>', ' ', 'u', ' ', 'c', ' ', 'd']⟩ =
      some (LinkL ⟨⟨['u']⟩, some ⟨['c', ' ', 'd']⟩⟩) :=
  (c9_link_render_amended ['u'] ['c', ' ', 'd']
    (by decide) (by decide) (by decide) (by decide)).2.2.1

/-- Counterexample to C10: with URL the non-empty string `a b`, the
line marker+space+URL+trailing-space does not classify to
Link(URL, Some ""): splitn splits at the first space inside the URL,
yielding Link("a", Some "b "). -/
theorem c10_counterexample :
    line_of_string c10_input = some (LinkL ⟨⟨['a']⟩, some ⟨['b', ' ']⟩⟩) ∧
    line_of_string c10_input ≠ some (LinkL ⟨c10_claim_url, some empty_str⟩) := by decide

/-- Claim C10 amended: for a non-empty URL containing no space, a link
line with exactly one trailing space after the url classifies to a
Link with a PRESENT but empty caption — distinct from an absent one —
and renders as `* [](URL)\n`, not as `* [URL](URL)\n`. -/
theorem c10_trailing_space_amended (url : List Char)
    (h1 : url ≠ []) (h2 : ' ' ∉ url) :
    (line_of_string ⟨'=' :: '>' :: ' ' :: (url ++ [' '])⟩ =
      some (LinkL ⟨⟨url⟩, some empty_str⟩)) ∧
    ((some empty_str : Option String) ≠ none) ∧
    (display_link ⟨⟨url⟩, some empty_str⟩ = "* [](" ++ ⟨url⟩ ++ ")\n") ∧
    (display_link ⟨⟨url⟩, some empty_str⟩ ≠ "* [" ++ ⟨url⟩ ++ "](" ++ ⟨url⟩ ++ ")\n") := by
  refine ⟨?_, by decide, rfl, ?_⟩
  · show line_of_chars ('=' :: '>' :: ' ' :: (url ++ ' ' :: [])) = _
    rw [los_link_space, link_of_line_url_tag url [] h2]
    rfl
  · intro hcontra
    have hd := congrArg (fun s : String => s.data.length) hcontra
    rw [show display_link ⟨⟨url⟩, some empty_str⟩ = "* [](" ++ ⟨url⟩ ++ ")\n" from rfl] at hd
    simp only [str_data_append, str_mk_data, List.length_append] at hd
    have hpos : 0 < url.length := List.length_pos.mpr h1
    have a1 : ("* [](" : String).data.length = 5 := rfl
    have a2 : ("* [" : String).data.length = 3 := rfl
    have a3 : ("](" : String).data.length = 2 := rfl
    have a4 : (")\n" : String).data.length = 2 := rfl
    rw [a1, a2, a3, a4] at hd
    omega

/-- Witness for the amended C10 at url `u`. -/
theorem c10_trailing_space_amended_witness :
    line_of_string ⟨['=', '>', ' ', 'u', ' ']⟩ =
      some (LinkL ⟨⟨['u']⟩, some empty_str⟩) :=
  (c10_trailing_space_amended ['u'] (by decide) (by decide)).1

/-- Claim C6: the aggregator emits a LinksB at every flush point — on
a Blank, Paragraph, Heading or Preformatted line, before that line's
own block if any — even when the pending buffer is empty; at end of
input an empty pending buffer emits nothing while a non-empty one is
flushed as a final LinksB. -/
theorem c6_flush_points (links : List Link) (p : String) (h : Heading)
    (pls : List String) (rest : List Line) :
    (blocks_of_lines links (BlankL :: rest) =
      (blocks_of_lines [] rest).map (fun t => LinksB links :: t)) ∧
    (blocks_of_lines links (ParaL p :: rest) =
      (blocks_of_lines [] rest).map (fun t => LinksB links :: ParaB p :: t)) ∧
    (blocks_of_lines links (HeadingL h :: rest) =
      (blocks_of_lines [] rest).map (fun t => LinksB links :: HeadingB h :: t)) ∧
    (blocks_of_lines links (PreformattedL pls :: rest) =
      (blocks_of_lines [] rest).map (fun t => LinksB links :: PreformattedB pls :: t)) ∧
    (blocks_of_lines ([] : List Link) [] = some []) ∧
    (links ≠ [] → blocks_of_lines links [] = some [LinksB links]) := by
  refine ⟨rfl, rfl, rfl, rfl, rfl, fun hne => ?_⟩
  have he : links.isEmpty = false := by
    cases links with
    | nil => exact absurd rfl hne
    | cons a t => rfl
  simp [blocks_of_lines, he]

/-- Witness for C6: a non-empty pending buffer at end of input is
flushed as a final LinksB. -/
theorem c6_flush_points_witness :
    blocks_of_lines [c6w_link] [] = some [LinksB [c6w_link]] :=
  (c6_flush_points [c6w_link] empty_str ⟨H1, empty_str⟩ [] []).2.2.2.2.2 (by decide)

theorem blocks_of_lines_append_links (links0 ls : List Link) (rest : List Line) :
    blocks_of_lines links0 (ls.map LinkL ++ rest) =
      blocks_of_lines (links0 ++ ls) rest := by
  induction ls generalizing links0 with
  | nil => simp
  | cons l t ih =>
    show blocks_of_lines (links0 ++ [l]) (t.map LinkL ++ rest) = _
    rw [ih]
    simp

/-- Claim C8: a maximal run of consecutive link lines aggregates into
exactly one LinksB preserving the original order — whether the run is
ended by a blank line or by end of input — and a blank line between
two runs of link lines splits them into two separate LinksB
emissions. -/
theorem c8_link_runs (ls ls2 : List Link) (rest : List Line) :
    (ls ≠ [] → blocks_of_lines [] (ls.map LinkL ++ BlankL :: rest) =
      (blocks_of_lines [] rest).map (fun t => LinksB ls :: t)) ∧
    (ls ≠ [] → blocks_of_lines [] (ls.map LinkL) = some [LinksB ls]) ∧
    (ls ≠ [] → ls2 ≠ [] →
      blocks_of_lines [] (ls.map LinkL ++ BlankL :: ls2.map LinkL) =
        some [LinksB ls, LinksB ls2]) := by
  have hend : ∀ l : List Link, l ≠ [] → blocks_of_lines l [] = some [LinksB l] := by
    intro l hl
    have he : l.isEmpty = false := by
      cases l with
      | nil => exact absurd rfl hl
      | cons a t => rfl
    simp [blocks_of_lines, he]
  have hrun : ∀ l : List Link, l ≠ [] →
      blocks_of_lines [] (l.map LinkL) = some [LinksB l] := by
    intro l hl
    have e : l.map LinkL = l.map LinkL ++ ([] : List Line) := by simp
    rw [e, blocks_of_lines_append_links]
    exact hend l hl
  refine ⟨fun h1 => ?_, fun h1 => hrun ls h1, fun h1 h2 => ?_⟩
  · rw [blocks_of_lines_append_links]
    rfl
  · rw [blocks_of_lines_append_links]
    show (blocks_of_lines [] (ls2.map LinkL)).map (fun t => LinksB ls :: t) = _
    rw [hrun ls2 h2]
    rfl

/-- Witness for C8: two single-link runs separated by a blank line
yield two separate LinksB blocks. -/
theorem c8_link_runs_witness :
    blocks_of_lines [] ([c8w_link1].map LinkL ++ BlankL :: [c8w_link2].map LinkL) =
      some [LinksB [c8w_link1], LinksB [c8w_link2]] :=
  (c8_link_runs [c8w_link1] [c8w_link2] []).2.2 (by decide) (by decide)

theorem fence_flag_cons (b : Bool) (x : String) (t : List String) :
    fence_flag b (x :: t) = fence_flag (if is_fence x then !b else b) t := rfl

theorem gather_preformatted_append (xs ys : List String) (b : Bool) :
    gather_preformatted b (xs ++ ys) =
      gather_preformatted b xs ++ gather_preformatted (fence_flag b xs) ys := by
  induction xs generalizing b with
  | nil => rfl
  | cons x t ih =>
    simp only [List.cons_append, gather_preformatted, fence_flag_cons]
    by_cases hx : is_fence x = true
    · simp only [if_pos hx]
      exact ih (!b)
    · simp only [if_neg hx]
      exact congrArg (fun z => (b, x) :: z) (ih b)

theorem fence_flag_eq (xs : List String) (b : Bool) :
    fence_flag b xs =
      if xs.countP (fun l => is_fence l) % 2 = 1 then !b else b := by
  induction xs generalizing b with
  | nil => simp [fence_flag]
  | cons x t ih =>
    rw [fence_flag_cons, ih, List.countP_cons]
    by_cases hx : is_fence x = true
    · rcases Nat.mod_two_eq_zero_or_one (t.countP (fun l => is_fence l)) with h0 | h1
      · have hc : (t.countP (fun l => is_fence l) + 1) % 2 = 1 := by omega
        simp [hx, h0, hc]
      · have hc : ¬((t.countP (fun l => is_fence l) + 1) % 2 = 1) := by omega
        simp [hx, h1, hc]
    · simp [hx]

theorem gather_preformatted_true_of_no_fence (suf : List String)
    (h : ∀ s ∈ suf, is_fence s = false) :
    gather_preformatted true suf = suf.map (fun l => (true, l)) := by
  induction suf with
  | nil => rfl
  | cons x t ih =>
    have hx : is_fence x = false := h x (List.mem_cons_self _ _)
    have ht : ∀ s ∈ t, is_fence s = false := fun s hs => h s (List.mem_cons_of_mem _ hs)
    simp [gather_preformatted, hx, ih ht]

theorem decode_lines_true_run (suf acc : List String) :
    decode_lines acc (suf.map (fun l => (true, l))) =
      some (if (acc ++ suf).isEmpty then []
            else [PreformattedL (acc ++ suf)]) := by
  induction suf generalizing acc with
  | nil => simp [decode_lines]
  | cons x t ih =>
    show decode_lines (acc ++ [x]) (t.map (fun l => (true, l))) = _
    rw [ih]
    simp

theorem decode_lines_decomp (xs : List (Bool × String)) (acc : List String) :
    decode_lines acc xs = (decode_emit acc xs).map (fun out =>
      out ++ (if (decode_state acc xs).isEmpty then []
              else [PreformattedL (decode_state acc xs)])) := by
  induction xs generalizing acc with
  | nil => simp [decode_lines, decode_emit, decode_state]
  | cons p t ih =>
    obtain ⟨fl, l⟩ := p
    cases fl with
    | true =>
      show decode_lines (acc ++ [l]) t = (decode_emit (acc ++ [l]) t).map (fun out =>
        out ++ (if (decode_state (acc ++ [l]) t).isEmpty then []
                else [PreformattedL (decode_state (acc ++ [l]) t)]))
      exact ih (acc ++ [l])
    | false =>
      simp only [decode_lines, decode_emit, decode_state]
      cases hl : line_of_chars l.data with
      | none => rfl
      | some cl =>
        rw [ih]
        by_cases hacc : acc.isEmpty
        · simp only [if_pos hacc]
          cases decode_emit [] t with
          | none => rfl
          | some o => simp
        · simp only [if_neg hacc]
          cases decode_emit [] t with
          | none => rfl
          | some o => simp

theorem decode_lines_append (xs ys : List (Bool × String)) (acc : List String) :
    decode_lines acc (xs ++ ys) =
      (decode_emit acc xs).bind (fun out =>
        (decode_lines (decode_state acc xs) ys).map (fun t2 => out ++ t2)) := by
  induction xs generalizing acc with
  | nil =>
    show decode_lines acc ys =
      (some []).bind (fun out => (decode_lines acc ys).map (fun t2 => out ++ t2))
    cases decode_lines acc ys with
    | none => rfl
    | some o => simp
  | cons p t ih =>
    obtain ⟨fl, l⟩ := p
    cases fl with
    | true =>
      show decode_lines (acc ++ [l]) (t ++ ys) = _
      exact ih (acc ++ [l])
    | false =>
      cases hl : line_of_chars l.data with
      | none =>
        simp [decode_lines, decode_emit, decode_state, hl]
      | some cl =>
        simp only [List.cons_append, List.append_eq, decode_lines, decode_emit,
          decode_state, hl]
        rw [ih]
        by_cases hacc : acc.isEmpty
        · simp only [if_pos hacc]
          cases decode_emit [] t with
          | none => rfl
          | some o =>
            cases decode_lines (decode_state [] t) ys with
            | none => rfl
            | some o2 => simp
        · simp only [if_neg hacc]
          cases decode_emit [] t with
          | none => rfl
          | some o =>
            cases decode_lines (decode_state [] t) ys with
            | none => rfl
            | some o2 => simp

/-- Counterexample to C7: the document of c7_doc has three (an odd
number of) fence-marker lines, and the single line after the last
fence marker is c7_y; but the final PreformattedL block contains
[c7_x, c7_y], not just the lines after the last fence marker — the
buffer of the first fenced region is never flushed because no
non-preformatted line follows it before the next region starts. -/
theorem c7_counterexample :
    (c7_doc.countP (fun l => is_fence l)) % 2 = 1 ∧
    decode_lines [] (gather_preformatted false c7_doc) =
      some [PreformattedL [c7_x, c7_y]] ∧
    some [PreformattedL [c7_x, c7_y]] ≠ some [PreformattedL [c7_y]] := by decide

/-- Claim C7 amended: for a document with an odd number of fence
lines, writing it as pre ++ f :: suf with f the last fence line (suf
fence-free and non-empty), decoding emits the emissions for pre
followed by exactly one final PreformattedL; that block contains, in
order, all lines between the last fence marker and end of input,
preceded within the same block by any preformatted lines still
buffered from pre (none whenever each earlier region is followed by a
non-preformatted line); with no line after the last fence the final
block can be absent, and a classification panic in pre kills the
pipeline (none). -/
theorem c7_final_preformatted_amended (pre suf : List String) (f : String)
    (hf : is_fence f = true)
    (hsuf : ∀ s ∈ suf, is_fence s = false)
    (hne : suf ≠ [])
    (hodd : ((pre ++ f :: suf).countP (fun l => is_fence l)) % 2 = 1) :
    decode_lines [] (gather_preformatted false (pre ++ f :: suf)) =
      (decode_emit [] (gather_preformatted false pre)).map
        (fun out => out ++
          [PreformattedL (decode_state [] (gather_preformatted false pre) ++ suf)]) := by
  have hc0 : suf.countP (fun l => is_fence l) = 0 :=
    List.countP_eq_zero.mpr (by intro s hs; simp [hsuf s hs])
  have hceven : pre.countP (fun l => is_fence l) % 2 = 0 := by
    rw [List.countP_append, List.countP_cons] at hodd
    simp only [hc0] at hodd
    simp [hf] at hodd
    omega
  have hflag : fence_flag false pre = false := by
    rw [fence_flag_eq]
    simp [hceven]
  have hg : gather_preformatted false (pre ++ f :: suf) =
      gather_preformatted false pre ++ suf.map (fun l => (true, l)) := by
    rw [gather_preformatted_append, hflag]
    have h2 : gather_preformatted false (f :: suf) = suf.map (fun l => (true, l)) := by
      simp [gather_preformatted, hf, gather_preformatted_true_of_no_fence suf hsuf]
    rw [h2]
  have hne2 : (decode_state [] (gather_preformatted false pre) ++ suf).isEmpty = false := by
    rcases hq : decode_state [] (gather_preformatted false pre) ++ suf with _ | ⟨a, t⟩
    · exact absurd (List.append_eq_nil.mp hq).2 hne
    · rfl
  rw [hg, decode_lines_append, decode_lines_true_run, hne2]
  cases decode_emit [] (gather_preformatted false pre) with
  | none => rfl
  | some o => simp

/-- Witness for the amended C7 on the document a, fence, b. -/
theorem c7_final_preformatted_amended_witness :
    decode_lines [] (gather_preformatted false ([c7w_a] ++ fence_str :: [c7w_b])) =
      (decode_emit [] (gather_preformatted false [c7w_a])).map
        (fun out => out ++
          [PreformattedL (decode_state [] (gather_preformatted false [c7w_a]) ++ [c7w_b])]) :=
  c7_final_preformatted_amended [c7w_a] [c7w_b] fence_str
    (by decide) (by decide) (by decide) (by decide)

